import Mathlib

/-!
# newsbot: a shallow embedding of `main.go`

The Go program keeps, per group, an active list of news articles and an
archive.  Each cycle of `run` loads the active list, possibly merges a fresh
batch (`doInsertNews`), picks an article (`selPostIdx`), composes a text,
checks the blocklist (`checkBlockedWords`), publishes (`httpPostEmma`),
rotates the list into the archive and writes it back.

Conventions of the embedding:

* a Go `string` is its byte sequence (`GoString`);
* a Go slice is a `List`; indexing outside the slice is a run-time panic and
  is modelled with `Option`;
* results of calls that leave the process (HTTP, translation, the random
  source, the clock) and of library routines whose algorithm is not in
  `main.go` (`sha256.Sum256`, `sort.Sort`, the markup strippers) are
  parameters of the definitions that use them.
-/

namespace Newsbot

/-! ## Data model -/

/-- A Go string: an immutable sequence of bytes. -/
abbrev GoString := List UInt8

/-- The struct `newsSource`. -/
structure newsSource where
  ID : GoString
  Name : GoString
deriving DecidableEq

/-- The struct `newsArticle`.  `Embeddings` is a `[]float32` that no function
of the program reads; it is carried as the list of the IEEE bit patterns. -/
structure newsArticle where
  Source : newsSource
  Author : GoString
  Title : GoString
  Description : GoString
  URL : GoString
  URLToImage : GoString
  PublishedAt : GoString
  Content : GoString
  Hash : GoString
  Posted : Bool
  Keyword : GoString
  Embeddings : List Nat
  Recommendation : GoString
deriving DecidableEq

/-- The slice type `newsArticleArray`. -/
abbrev newsArticleArray := List newsArticle

/-! ## Fingerprint -/

/-- One hexadecimal digit of `hex.EncodeToString` (lower case). -/
def hexDigit (n : Nat) : UInt8 :=
  if n < 10 then UInt8.ofNat (48 + n) else UInt8.ofNat (87 + n)

/-- The library routine `hex.EncodeToString`: two digits per byte, high nibble first. -/
def hexEncodeToString (bs : List UInt8) : GoString :=
  match bs with
  | [] => []
  | b :: rest => hexDigit (b.toNat / 16) :: hexDigit (b.toNat % 16) :: hexEncodeToString rest

/-- The salt `"k07382"` that `getHasString` puts in front of the description. -/
def hashSalt : GoString := [107, 48, 55, 51, 56, 50]

/-- Function `getHasString` (main.go 261-265).  `sum256` stands for `sha256.Sum256`. -/
def getHasString (sum256 : List UInt8 → List UInt8) (s : GoString) : GoString :=
  let s := hashSalt ++ s
  let hash := sum256 s
  hexEncodeToString hash

/-! ## Merge of a candidate batch -/

/-- The inner loop of `doInsertNews` (main.go 352-358): scan `na` from the
front, stop with `hit = true` at the first entry whose `Hash` equals `h`. -/
def hashHit (na : newsArticleArray) (h : GoString) : Bool :=
  match na with
  | [] => false
  | x :: rest => if x.Hash = h then true else hashHit rest h

/-- Function `doInsertNews` (main.go 345-364).  The pointer `na` is read and written
back, so the updated slice is the result; `n` is only read. -/
def doInsertNews (sum256 : List UInt8 → List UInt8) (na n : newsArticleArray)
    (keyword : GoString) : newsArticleArray :=
  match n with
  | [] => na
  | a :: rest =>
    let article : newsArticle :=
      { a with Hash := getHasString sum256 a.Description, Posted := false, Keyword := keyword }
    let hit := hashHit na article.Hash
    doInsertNews sum256 (if !hit then na ++ [article] else na) rest keyword

/-! ## Blocklist -/

/-- Library routine `strings.HasPrefix(s, p)`: `s` starts with the bytes of `p`. -/
def startsWith (s p : GoString) : Bool :=
  match p, s with
  | [], _ => true
  | _ :: _, [] => false
  | b :: p1, c :: s1 => if b = c then startsWith s1 p1 else false

/-- Library routine `strings.Contains(s, substr)`: some position of `s` (its end included)
starts a run of bytes equal to `substr`. -/
def stringsContains (s substr : GoString) : Bool :=
  match s with
  | [] => startsWith [] substr
  | c :: rest => if startsWith (c :: rest) substr then true else stringsContains rest substr

/-- The struct `transType`: one substitution rule. -/
structure transType where
  target : GoString
  replace : GoString
deriving DecidableEq

/-- The struct `newsApp`.  `interval` and `phase` are `int32`. -/
structure newsApp where
  group : GoString
  exclusive : GoString
  emmaToken : GoString
  consumerKey : GoString
  consumerSecret : GoString
  refreshToken : GoString
  newskey : GoString
  interval : Int
  phase : Int
  keywords : List GoString
  blockedWords : List GoString
  trans : List transType
deriving DecidableEq

/-- The loop of `checkBlockedWords` (main.go 58-67) over the terms not yet
visited: an empty term is skipped, the first term contained in `input`
returns `true`. -/
def checkBlockedWordsFrom (blockedWords : List GoString) (input : GoString) : Bool :=
  match blockedWords with
  | [] => false
  | w :: rest =>
    if w.length = 0 then checkBlockedWordsFrom rest input
    else if stringsContains input w then true
    else checkBlockedWordsFrom rest input

/-- Function `checkBlockedWords` (main.go 57-70). -/
def checkBlockedWords (app : newsApp) (input : GoString) : Bool :=
  checkBlockedWordsFrom app.blockedWords input

/-! ## Hashtag -/

/-- The Go conversion `string(b)` of a byte `b`: the UTF-8 encoding of the
code point with the value of `b` (one byte below 0x80, two bytes from 0x80). -/
def stringOfByte (b : UInt8) : GoString :=
  if b.toNat < 128 then [b]
  else [UInt8.ofNat (192 + b.toNat / 64), UInt8.ofNat (128 + b.toNat % 64)]

/-- The loop of `removeSpace` (main.go 407-411) over the bytes not yet
visited, `out` being the string built so far. -/
def removeSpaceLoop (rest : GoString) (out : GoString) : GoString :=
  match rest with
  | [] => out
  | c :: rest1 => removeSpaceLoop rest1 (if c ≠ 32 then out ++ stringOfByte c else out)

/-- Function `removeSpace` (main.go 405-414). -/
def removeSpace (inp : GoString) : GoString :=
  removeSpaceLoop inp []

/-! ## Selector -/

/-- How a run of the selector loop ends: it returns index `idx` after
`ndraws` calls of `rand.Int31n`, it panics (`rand.Int31n` on a bound that is
not positive, or an index outside the slice), or the model ran out of fuel. -/
inductive Sel where
  | ret (idx : Nat) (ndraws : Nat)
  | panic
  | moreFuel
deriving DecidableEq

/-- The loop of `selPostIdx` (main.go 418-428) entered with `counter`.
`draws k` is the value the `k`-th call of `rand.Int31n(int32(len(*na)))`
returns, counted from 0; the call made with `counter = k` is the `k`-th.  The
bound `int32(len(*na))` is the length for every slice shorter than 2^31. -/
def selPostIdxLoop (na : newsArticleArray) (draws : Nat → Nat) (fuel counter : Nat) : Sel :=
  match fuel with
  | 0 => Sel.moreFuel
  | fuel1 + 1 =>
    if na.length = 0 then Sel.panic
    else
      let idx := draws counter
      match na[idx]? with
      | none => Sel.panic
      | some a =>
        if a.Posted = false then Sel.ret idx (counter + 1)
        else
          let counter := counter + 1
          if counter > 50 then Sel.ret 0 counter
          else selPostIdxLoop na draws fuel1 counter

/-- Function `selPostIdx` (main.go 416-430): the loop entered with `counter = 0`.
51 units of fuel are enough for every input (`selPostIdxLoop_policy`). -/
def selPostIdx (na : newsArticleArray) (draws : Nat → Nat) : Sel :=
  selPostIdxLoop na draws 51 0

/-- The selection policy in the words of the specification, with the retry
bound `attempts` as a parameter: the first draw among the first `attempts`
whose entry is not posted is returned as `(index, draws made)`; when all of
them land on posted entries the result is index 0 and no further draw. -/
def pickPolicy (attempts : Nat) (na : newsArticleArray) (draws : Nat → Nat) : Nat × Nat :=
  match (List.range attempts).find? (fun k => (na[draws k]?).any (fun a => !a.Posted)) with
  | some k => (draws k, k + 1)
  | none => (0, attempts)

/-! ## One cycle of `run` -/

/-- The content of a store file on disk. -/
inductive DbFile where
  | missing
  | corrupt
  | holds (ns : newsArticleArray)
deriving DecidableEq

/-- Function `readDbJSON` (main.go 275-288): a missing file is the empty list, a file
that does not parse ends the process (`none`). -/
def readDbJSON (f : DbFile) : Option newsArticleArray :=
  match f with
  | DbFile.missing => some []
  | DbFile.corrupt => none
  | DbFile.holds ns => some ns

/-- The calls that change something outside the process. -/
inductive IOEvent where
  | refreshToken
  | postComment (content : GoString)
  | writeNewsArchive (ns : newsArticleArray)
  | writeNewsDb (ns : newsArticleArray)
deriving DecidableEq

/-- What persists between cycles: the two store files, and the log of the
calls made so far, oldest first. -/
structure World where
  db : DbFile
  archive : DbFile
  events : List IOEvent
deriving DecidableEq

/-- What `client.Do` returns in `httpPostEmma`. -/
inductive PostResult where
  | response
  | errorWithResponse
  | errorNoResponse
deriving DecidableEq

/-- The answers of the outside world during one cycle, and the library
routines whose algorithm is not part of `main.go`. -/
structure CycleEnv where
  /-- Library routine `sha256.Sum256`. -/
  sum256 : List UInt8 → List UInt8
  /-- The value of `rand.Int31n` in `randomNews`. -/
  keywordDraw : Nat
  /-- The articles `newsQuery` returns for a keyword; `none` when it ends the
  process with `log.Fatalln`. -/
  newsQuery : GoString → Option newsArticleArray
  /-- Library routine `sort.Sort` with the order of `Less` (main.go 187-192). -/
  sort : newsArticleArray → newsArticleArray
  /-- The values of `rand.Int31n` in `selPostIdx`. -/
  draws : Nat → Nat
  /-- Lines 446-459: first segment of the description, translated or not. -/
  excerpt : GoString → GoString
  /-- Lines 461-471: the title, translated or not. -/
  title : GoString → GoString
  /-- Line 479: `re.ReplaceAllString(out, "")`. -/
  stripClosing : GoString → GoString
  /-- Line 480: `strip.StripTags`. -/
  stripTags : GoString → GoString
  /-- Line 483: `strings.Replace(s, old, new, -1)`. -/
  replaceAll : GoString → GoString → GoString → GoString
  /-- The access token `doRefreshToken` obtains; `none` when it returns an error. -/
  refresh : Option GoString
  /-- The result of the POST request. -/
  post : PostResult

/-- The loop of lines 481-484 over the rules not yet applied. -/
def applyTrans (replaceAll : GoString → GoString → GoString → GoString)
    (trans : List transType) (out : GoString) : GoString :=
  match trans with
  | [] => out
  | t :: rest => applyTrans replaceAll rest (replaceAll out t.target t.replace)

/-- The text composed for the selected article (main.go 444-485). -/
def composePost (app : newsApp) (env : CycleEnv) (a : newsArticle) : GoString :=
  let output := env.excerpt a.Description
  let tag := a.Keyword
  let title := env.title a.Title
  let out := title ++ [10, 10] ++ output
  let out := if tag.length > 0 then out ++ ([32, 35] ++ removeSpace tag) else out
  let out := env.stripClosing out
  let out := env.stripTags out
  let out := applyTrans env.replaceAll app.trans out
  out ++ ([10] ++ a.URL)

/-- Function `httpPostEmma` (main.go 229-259), for a request that
`http.NewRequest` accepts.  The `Bool` is `false` when the function panics:
`client.Do` failed without a response and `resp.Body` is read. -/
def httpPostEmma (app : newsApp) (env : CycleEnv) (w : World) (content : GoString) :
    newsApp × World × Bool :=
  match env.refresh with
  | none => (app, { w with events := w.events ++ [IOEvent.refreshToken] }, true)
  | some tok =>
    let app1 := { app with emmaToken := tok }
    let w1 := { w with events := w.events ++ [IOEvent.refreshToken, IOEvent.postComment content] }
    match env.post with
    | PostResult.errorNoResponse => (app1, w1, false)
    | _ => (app1, w1, true)

/-- The rotation step of `run` (main.go 490-495), the write of the archive
succeeding.  `none`: the archive file does not parse and `readDbJSON` ends
the process. -/
def runRotate (w : World) (na : newsArticleArray) : Option (World × newsArticleArray) :=
  if na.length > 500 then
    match readDbJSON w.archive with
    | none => none
    | some old =>
      let archive := na.drop 500 ++ old
      some ({ w with archive := DbFile.holds archive,
                     events := w.events ++ [IOEvent.writeNewsArchive archive] }, na.take 500)
  else some (w, na)

/-- The assignment `na[idx].Posted = true` (main.go 496); `none` is the
index-out-of-range panic. -/
def markPosted (na : newsArticleArray) (idx : Nat) : Option newsArticleArray :=
  match na[idx]? with
  | none => none
  | some a => some (na.set idx { a with Posted := true })

/-- Function `writeNewsDb` (main.go 309-311), the write succeeding. -/
def writeNewsDb (w : World) (ns : newsArticleArray) : World :=
  { w with db := DbFile.holds ns, events := w.events ++ [IOEvent.writeNewsDb ns] }

/-- How one pass through the body of the loop of `run` ends. -/
inductive CycleStatus where
  /-- Line 499: published, slept a random number of minutes. -/
  | slept
  /-- Line 501: the active list was empty, slept one minute. -/
  | idle
  /-- Line 487: the blocklist matched, `continue`. -/
  | blocked
  /-- A run-time panic. -/
  | panicked
  /-- A call of `log.Fatalln`. -/
  | fatal
deriving DecidableEq

/-- The state after one pass through the body of the loop of `run`. -/
structure Outcome where
  app : newsApp
  world : World
  phase : Int
  status : CycleStatus
deriving DecidableEq

/-- A result, a panic, or the end of the process. -/
inductive Res (α : Type) where
  | ok (a : α)
  | panic
  | fatal
deriving DecidableEq

/-- Function `randomNews` with `insertNews` (main.go 366-377). -/
def randomNews (app : newsApp) (env : CycleEnv) (na : newsArticleArray) : Res newsArticleArray :=
  if app.keywords.length ≤ 0 then Res.ok na
  else
    match app.keywords[env.keywordDraw]? with
    | none => Res.panic
    | some q =>
      match env.newsQuery q with
      | none => Res.fatal
      | some n => Res.ok (doInsertNews env.sum256 na n q)

/-- Conversion of an integer to `int32` (wrap-around). -/
def wrapInt32 (x : Int) : Int :=
  (x + 2147483648) % 4294967296 - 2147483648

/-- The body of `run` from line 442 on, for the sorted list `na`. -/
def runPublish (app : newsApp) (env : CycleEnv) (w : World) (phase : Int)
    (na : newsArticleArray) : Outcome :=
  if na.length > 0 then
    match selPostIdx na env.draws with
    | Sel.ret idx _ =>
      match na[idx]? with
      | none => ⟨app, w, phase, CycleStatus.panicked⟩
      | some a =>
        let out := composePost app env a
        if checkBlockedWords app out then ⟨app, w, phase, CycleStatus.blocked⟩
        else
          match httpPostEmma app env w out with
          | (app1, w1, false) => ⟨app1, w1, phase, CycleStatus.panicked⟩
          | (app1, w1, true) =>
            match runRotate w1 na with
            | none => ⟨app1, w1, phase, CycleStatus.fatal⟩
            | some (w2, na2) =>
              match markPosted na2 idx with
              | none => ⟨app1, w2, phase, CycleStatus.panicked⟩
              | some na3 =>
                let w3 := writeNewsDb w2 na3
                if app1.interval ≤ 0 then ⟨app1, w3, phase, CycleStatus.panicked⟩
                else ⟨app1, w3, phase, CycleStatus.slept⟩
    | _ => ⟨app, w, phase, CycleStatus.panicked⟩
  else ⟨app, w, phase, CycleStatus.idle⟩

/-- Lines 435-441 of `run`: load the active list, merge a batch when `phase`
is 0, count `phase` down, sort. -/
def runLoad (app : newsApp) (env : CycleEnv) (w : World) (phase : Int) :
    Res (newsArticleArray × Int) :=
  match readDbJSON w.db with
  | none => Res.fatal
  | some na =>
    match (if phase = 0 then randomNews app env na else Res.ok na) with
    | Res.panic => Res.panic
    | Res.fatal => Res.fatal
    | Res.ok na1 =>
      let phase1 := if phase = 0 then app.phase else phase
      Res.ok (env.sort na1, wrapInt32 (phase1 - 1))

/-- One pass through the body of the loop of `run` (main.go 435-502). -/
def runCycle (app : newsApp) (env : CycleEnv) (w : World) (phase : Int) : Outcome :=
  match runLoad app env w phase with
  | Res.fatal => ⟨app, w, phase, CycleStatus.fatal⟩
  | Res.panic => ⟨app, w, phase, CycleStatus.panicked⟩
  | Res.ok (na, phase1) => runPublish app env w phase1 na

/-! ## Sample data for the concrete evaluations -/

/-- An article with the given description, fingerprint and posted flag; the
other fields are empty. -/
def sampleArticle (desc hash : GoString) (posted : Bool) : newsArticle :=
  { Source := ⟨[], []⟩, Author := [], Title := [], Description := desc, URL := [],
    URLToImage := [], PublishedAt := [], Content := [], Hash := hash, Posted := posted,
    Keyword := [], Embeddings := [], Recommendation := [] }

/-- A stand-in for `sha256.Sum256` without collisions: the identity.  The
theorems about the merge hold for every function in its place. -/
def sampleSum256 (s : List UInt8) : List UInt8 := s

/-- An application record with the given blocklist: publish interval 30,
ingestion phase 5, one keyword `"go"`, no substitution rules. -/
def sampleApp (blocked : List GoString) : newsApp :=
  { group := [], exclusive := [], emmaToken := [], consumerKey := [], consumerSecret := [],
    refreshToken := [], newskey := [], interval := 30, phase := 5, keywords := [[103, 111]],
    blockedWords := blocked, trans := [] }

/-- An environment with the given selector draws and token refresh result:
the search returns no article, texts pass through the translation and the
strippers unchanged, the list is left in its order by the sort, and the POST
request is answered. -/
def sampleEnv (draws : Nat → Nat) (refresh : Option GoString) : CycleEnv :=
  { sum256 := sampleSum256, keywordDraw := 0, newsQuery := fun _ => some [], sort := fun na => na,
    draws := draws, excerpt := fun s => s, title := fun s => s, stripClosing := fun s => s,
    stripTags := fun s => s, replaceAll := fun s _ _ => s, refresh := refresh,
    post := PostResult.response }

/-- A posted entry followed by an entry not yet posted. -/
def samplePair : newsArticleArray :=
  [sampleArticle [97] [104, 49] true, sampleArticle [98] [104, 50] false]

/-- The draws 0, 0, ... (50 times), then 1 for ever. -/
def drawsLate (k : Nat) : Nat := if k < 50 then 0 else 1

/-- Three decimal digits of `n`, as a string. -/
def digits3 (n : Nat) : GoString :=
  [UInt8.ofNat (48 + n / 100 % 10), UInt8.ofNat (48 + n / 10 % 10), UInt8.ofNat (48 + n % 10)]

/-- The posted entry number `i` of the oversized list: fingerprint `digits3 i`,
timestamp `digits3 (999 - i)`, so that the timestamps fall with `i`. -/
def oversizedEntry (i : Nat) : newsArticle :=
  { sampleArticle (digits3 i) (digits3 i) true with PublishedAt := digits3 (999 - i) }

/-- The last entry of the oversized list, not posted, with the oldest timestamp. -/
def oversizedLast : newsArticle :=
  { sampleArticle (digits3 500) (digits3 500) false with PublishedAt := digits3 499 }

/-- An active list of 501 entries in descending order of `PublishedAt` (so
`sort.Sort` leaves it as it is), with pairwise distinct fingerprints, all
posted except the entry at index 500. -/
def oversizedList : newsArticleArray :=
  (List.range 500).map oversizedEntry ++ [oversizedLast]

/-- The stores before the cycle over the oversized list: the active list on
disk, no archive file yet, nothing logged. -/
def oversizedWorld : World :=
  { db := DbFile.holds oversizedList, archive := DbFile.missing, events := [] }

/-- An article titled `"spam!"`, not posted. -/
def spamArticle : newsArticle :=
  { sampleArticle [97] [104, 49] false with Title := [115, 112, 97, 109, 33] }

/-- The stores holding the one article `a` in the active list. -/
def singleWorld (a : newsArticle) : World :=
  { db := DbFile.holds [a], archive := DbFile.missing, events := [] }

/-- A plain article, not posted. -/
def plainArticle : newsArticle := sampleArticle [97] [104, 49] false

/-- A batch of four candidates: two with the description `"x"`, two with an
empty description. -/
def sampleBatch : newsArticleArray :=
  [sampleArticle [120] [] false, sampleArticle [120] [] true,
   sampleArticle [] [] false, sampleArticle [] [] true]

/-- The keyword `"a b\tc"`: a space and a tab between letters. -/
def sampleKeyword : GoString := [97, 32, 98, 9, 99]

/-- The application record with the blocklist `["", "spam"]`. -/
def spamApp : newsApp := sampleApp [[], [115, 112, 97, 109]]

/-- The environment of the cycle over the oversized list: the first draw of
the selector is 500, the token refresh and the POST request succeed. -/
def oversizedEnv : CycleEnv := sampleEnv (fun _ => 500) (some [116])

/-- An environment in which every draw is 0 and the token refresh fails. -/
def refreshFailEnv : CycleEnv := sampleEnv (fun _ => 0) none

/-- An environment in which every draw is 0 and the token refresh succeeds. -/
def refreshOkEnv : CycleEnv := sampleEnv (fun _ => 0) (some [116])

/-- Entry 0 of the oversized list before it is posted. -/
def freshHead : newsArticle := { oversizedEntry 0 with Posted := false }

/-- The oversized list with its entry 0 not yet posted: 501 entries in
descending order of `PublishedAt`, entries 0 and 500 unposted. -/
def freshHeadList : newsArticleArray := oversizedList.set 0 freshHead

/-- The stores holding `freshHeadList` as the active list, no archive file. -/
def freshHeadWorld : World :=
  { db := DbFile.holds freshHeadList, archive := DbFile.missing, events := [] }

/-! ## Merge: lemmas -/

theorem hashHit_iff (na : newsArticleArray) (h : GoString) :
    hashHit na h = true ↔ h ∈ na.map (fun x => x.Hash) := by
  induction na with
  | nil => simp [hashHit]
  | cons x rest ih =>
    unfold hashHit
    by_cases hx : x.Hash = h
    · simp [hx]
    · simp only [hx, if_false, ih, List.map_cons, List.mem_cons]
      constructor
      · intro hm; exact Or.inr hm
      · rintro (he | hm)
        · exact absurd he.symm hx
        · exact hm

theorem doInsertNews_hashes_kept (sum256 : List UInt8 → List UInt8) (n na : newsArticleArray)
    (keyword h : GoString) (hm : h ∈ na.map (fun x => x.Hash)) :
    h ∈ (doInsertNews sum256 na n keyword).map (fun x => x.Hash) := by
  induction n generalizing na with
  | nil => simpa [doInsertNews] using hm
  | cons a rest ih =>
    unfold doInsertNews
    apply ih
    split
    · simp only [List.map_append, List.mem_append]
      exact Or.inl hm
    · exact hm

theorem doInsertNews_batch_covered (sum256 : List UInt8 → List UInt8) (n na : newsArticleArray)
    (keyword : GoString) (a : newsArticle) (ha : a ∈ n) :
    getHasString sum256 a.Description ∈ (doInsertNews sum256 na n keyword).map (fun x => x.Hash) := by
  induction n generalizing na with
  | nil => cases ha
  | cons b rest ih =>
    unfold doInsertNews
    rcases List.mem_cons.mp ha with hab | hrest
    · subst hab
      apply doInsertNews_hashes_kept
      by_cases hit : hashHit na (getHasString sum256 a.Description) = true
      · simp only [hit, Bool.not_true, Bool.false_eq_true, if_false]
        exact (hashHit_iff _ _).mp hit
      · simp [hit]
    · exact ih _ hrest

theorem doInsertNews_all_hit (sum256 : List UInt8 → List UInt8) (n na : newsArticleArray)
    (keyword : GoString)
    (hall : ∀ a ∈ n, getHasString sum256 a.Description ∈ na.map (fun x => x.Hash)) :
    doInsertNews sum256 na n keyword = na := by
  induction n with
  | nil => simp [doInsertNews]
  | cons b rest ih =>
    unfold doInsertNews
    have hb := (hashHit_iff _ _).mpr (hall b (List.mem_cons_self _ _))
    simp only [hb, Bool.not_true, Bool.false_eq_true, if_false]
    exact ih (fun a ha => hall a (List.mem_cons_of_mem _ ha))

/-! ## Merge: the claims -/

/-- C1. Merging the same batch with the same keyword a second time appends
nothing: the active list after two runs of `doInsertNews` is the list after one. -/
theorem doInsertNews_idempotent (sum256 : List UInt8 → List UInt8) (na n : newsArticleArray)
    (keyword : GoString) :
    doInsertNews sum256 (doInsertNews sum256 na n keyword) n keyword
      = doInsertNews sum256 na n keyword :=
  doInsertNews_all_hit sum256 n _ keyword
    (fun a ha => doInsertNews_batch_covered sum256 n na keyword a ha)

/-- C2. If the `Hash` fields of the active list are pairwise distinct, so are
the `Hash` fields of the list `doInsertNews` produces, whatever the batch. -/
theorem doInsertNews_nodup (sum256 : List UInt8 → List UInt8) (na n : newsArticleArray)
    (keyword : GoString) (hnd : (na.map (fun x => x.Hash)).Nodup) :
    ((doInsertNews sum256 na n keyword).map (fun x => x.Hash)).Nodup := by
  induction n generalizing na with
  | nil => simpa [doInsertNews] using hnd
  | cons a rest ih =>
    unfold doInsertNews
    apply ih
    by_cases hit : hashHit na (getHasString sum256 a.Description) = true
    · simpa [hit] using hnd
    · have hnot : getHasString sum256 a.Description ∉ na.map (fun x => x.Hash) :=
        fun hm => hit ((hashHit_iff _ _).mpr hm)
      simp only [hit, Bool.not_false, if_true, List.map_append, List.map_cons, List.map_nil]
      rw [List.nodup_append]
      refine ⟨hnd, List.nodup_singleton _, ?_⟩
      intro x hx hx1
      rw [List.mem_singleton] at hx1
      subst hx1
      exact hnot hx

/-! ## Blocklist: lemmas -/

theorem startsWith_iff (s p : GoString) :
    startsWith s p = true ↔ ∃ r, s = p ++ r := by
  induction p generalizing s with
  | nil => simp [startsWith]
  | cons b p1 ih =>
    cases s with
    | nil => simp [startsWith]
    | cons c s1 =>
      unfold startsWith
      by_cases hbc : b = c
      · subst hbc
        simp only [if_true, ih, List.cons_append, List.cons.injEq, true_and]
      · simp only [hbc, if_false, Bool.false_eq_true, false_iff]
        rintro ⟨r, hr⟩
        simp only [List.cons_append, List.cons.injEq] at hr
        exact hbc hr.1.symm

theorem stringsContains_iff (s substr : GoString) :
    stringsContains s substr = true ↔ ∃ l r, s = l ++ substr ++ r := by
  induction s with
  | nil =>
    unfold stringsContains
    rw [startsWith_iff]
    constructor
    · rintro ⟨r, hr⟩
      exact ⟨[], r, by simpa using hr⟩
    · rintro ⟨l, r, hr⟩
      have h1 : l ++ substr ++ r = [] := hr.symm
      simp only [List.append_eq_nil] at h1
      exact ⟨[], by simp [h1.1.2]⟩
  | cons c rest ih =>
    unfold stringsContains
    by_cases hsw : startsWith (c :: rest) substr = true
    · simp only [hsw, if_true, true_iff]
      obtain ⟨r, hr⟩ := (startsWith_iff _ _).mp hsw
      exact ⟨[], r, by simpa using hr⟩
    · have hsf : startsWith (c :: rest) substr = false := by simpa using hsw
      simp only [hsf, Bool.false_eq_true, if_false, ih]
      constructor
      · rintro ⟨l, r, hr⟩
        exact ⟨c :: l, r, by simp [hr]⟩
      · rintro ⟨l, r, hr⟩
        cases l with
        | nil =>
          exact absurd ((startsWith_iff _ _).mpr ⟨r, by simpa using hr⟩) hsw
        | cons d l1 =>
          simp only [List.cons_append, List.cons.injEq] at hr
          exact ⟨l1, r, hr.2⟩

theorem checkBlockedWordsFrom_iff (ws : List GoString) (input : GoString) :
    checkBlockedWordsFrom ws input = true
      ↔ ∃ w ∈ ws, w ≠ [] ∧ ∃ l r, input = l ++ w ++ r := by
  induction ws with
  | nil => simp [checkBlockedWordsFrom]
  | cons w rest ih =>
    unfold checkBlockedWordsFrom
    by_cases hw : w.length = 0
    · have hnil : w = [] := List.length_eq_zero.mp hw
      simp only [hw, if_true, ih, List.mem_cons]
      constructor
      · rintro ⟨v, hv, hne, hsub⟩
        exact ⟨v, Or.inr hv, hne, hsub⟩
      · rintro ⟨v, hv | hv, hne, hsub⟩
        · exact absurd (hv.trans hnil) hne
        · exact ⟨v, hv, hne, hsub⟩
    · have hne : w ≠ [] := fun h => hw (by simp [h])
      by_cases hc : stringsContains input w = true
      · simp only [hw, hc, if_false, if_true, true_iff]
        exact ⟨w, List.mem_cons_self _ _, hne, (stringsContains_iff _ _).mp hc⟩
      · have hcf : stringsContains input w = false := by simpa using hc
        simp only [hw, hcf, Bool.false_eq_true, if_false, ih, List.mem_cons]
        constructor
        · rintro ⟨v, hv, hvne, hsub⟩
          exact ⟨v, Or.inr hv, hvne, hsub⟩
        · rintro ⟨v, hv | hv, hvne, hsub⟩
          · subst hv
            exact absurd ((stringsContains_iff _ _).mpr hsub) hc
          · exact ⟨v, hv, hvne, hsub⟩

theorem checkBlockedWordsFrom_replicate_nil (k : Nat) (input : GoString) :
    checkBlockedWordsFrom (List.replicate k []) input = false := by
  induction k with
  | zero => simp [checkBlockedWordsFrom]
  | succ k ih => simpa [List.replicate_succ, checkBlockedWordsFrom] using ih

/-! ## Blocklist: the claim -/

/-- C7. `checkBlockedWords` returns `true` exactly when some non-empty blocked
term occurs in the text as a contiguous run of bytes; a blocklist made only of
empty terms returns `false` for every text. -/
theorem checkBlockedWords_iff (app : newsApp) (input : GoString) :
    (checkBlockedWords app input = true
      ↔ ∃ w ∈ app.blockedWords, w ≠ [] ∧ ∃ l r, input = l ++ w ++ r)
    ∧ ∀ k : Nat, checkBlockedWords { app with blockedWords := List.replicate k [] } input = false :=
  ⟨checkBlockedWordsFrom_iff app.blockedWords input,
   fun k => checkBlockedWordsFrom_replicate_nil k input⟩

/-! ## Hashtag: lemmas -/

theorem toNat_ofNat8 (n : Nat) : (UInt8.ofNat n).toNat = n % 256 := rfl

theorem ofNat8_ne_space (n : Nat) (h : n % 256 ≠ 32) : UInt8.ofNat n ≠ 32 := by
  intro he
  have h1 := congrArg UInt8.toNat he
  rw [toNat_ofNat8] at h1
  exact h (h1.trans (by decide))

theorem stringOfByte_no_space (c : UInt8) (hc : c ≠ 32) : (32 : UInt8) ∉ stringOfByte c := by
  unfold stringOfByte
  have hlt : c.toNat < 256 := UInt8.toNat_lt_size c
  by_cases h : c.toNat < 128
  · simp only [h, if_true, List.mem_singleton]
    exact fun he => hc he.symm
  · simp only [h, if_false, List.mem_cons, List.mem_singleton, List.not_mem_nil, or_false]
    rintro (he | he)
    · exact ofNat8_ne_space _ (by omega) he.symm
    · exact ofNat8_ne_space _ (by omega) he.symm

theorem removeSpaceLoop_append (rest out : GoString) :
    removeSpaceLoop rest out = out ++ removeSpaceLoop rest [] := by
  induction rest generalizing out with
  | nil => simp [removeSpaceLoop]
  | cons c rest1 ih =>
    unfold removeSpaceLoop
    rw [ih (if c ≠ 32 then out ++ stringOfByte c else out),
      ih (if c ≠ 32 then [] ++ stringOfByte c else [])]
    by_cases hc : c = 32 <;> simp [hc]

theorem removeSpace_cons (c : UInt8) (rest : GoString) :
    removeSpace (c :: rest) = (if c ≠ 32 then stringOfByte c else []) ++ removeSpace rest := by
  unfold removeSpace
  conv_lhs => unfold removeSpaceLoop
  rw [removeSpaceLoop_append]
  by_cases hc : c = 32 <;> simp [hc]

theorem removeSpace_no_space (kw : GoString) : (32 : UInt8) ∉ removeSpace kw := by
  induction kw with
  | nil => simp [removeSpace, removeSpaceLoop]
  | cons c rest ih =>
    rw [removeSpace_cons, List.mem_append]
    rintro (h | h)
    · by_cases hc : c = 32
      · simp [hc] at h
      · simp only [hc, ne_eq, not_false_eq_true, if_true] at h
        exact stringOfByte_no_space c hc h
    · exact ih h

theorem removeSpace_ascii (kw : GoString) (hascii : ∀ c ∈ kw, c.toNat < 128) :
    removeSpace kw = kw.filter (fun c => decide (c ≠ 32)) := by
  induction kw with
  | nil => simp [removeSpace, removeSpaceLoop]
  | cons c rest ih =>
    have hc : c.toNat < 128 := hascii c (List.mem_cons_self _ _)
    rw [removeSpace_cons, ih (fun d hd => hascii d (List.mem_cons_of_mem _ hd))]
    by_cases h32 : c = 32
    · simp [h32]
    · simp [h32, stringOfByte, hc]

/-! ## Hashtag: the claim -/

/-- C10, amended. For a keyword of ASCII bytes, `removeSpace` returns the
keyword without its space bytes (0x20), every other byte, tabs and newlines
included, unchanged and in order; the result holds no space byte. -/
theorem removeSpace_spec (kw : GoString) (hascii : ∀ c ∈ kw, c.toNat < 128) :
    removeSpace kw = kw.filter (fun c => decide (c ≠ 32))
      ∧ (32 : UInt8) ∉ removeSpace kw :=
  ⟨removeSpace_ascii kw hascii, removeSpace_no_space kw⟩

/-! ## Selector: lemmas -/

/-- With draws inside the list, the loop entered with `counter ≤ 50` and
enough fuel returns the first draw from `counter` on that lands on an entry
not yet posted, and index 0 after the draw number 50 when there is none. -/
theorem selPostIdxLoop_eq (na : newsArticleArray) (draws : Nat → Nat)
    (hr : ∀ k, draws k < na.length) (fuel counter : Nat)
    (hc : counter ≤ 50) (hf : 51 ≤ counter + fuel) :
    selPostIdxLoop na draws fuel counter =
      match (List.range' counter (51 - counter)).find?
          (fun k => (na[draws k]?).any (fun a => !a.Posted)) with
      | some k => Sel.ret (draws k) (k + 1)
      | none => Sel.ret 0 51 := by
  induction fuel generalizing counter with
  | zero => omega
  | succ fuel1 ih =>
    have hlen : na.length ≠ 0 := by have := hr 0; omega
    have hrange : List.range' counter (51 - counter)
        = counter :: List.range' (counter + 1) (50 - counter) := by
      have h1 : 51 - counter = (50 - counter) + 1 := by omega
      rw [h1, List.range'_succ]
    obtain ⟨a, ha⟩ : ∃ a, na[draws counter]? = some a :=
      ⟨_, List.getElem?_eq_getElem (hr counter)⟩
    unfold selPostIdxLoop
    simp only [hlen, if_false, ha, hrange, List.find?_cons, Option.any_some]
    by_cases hp : a.Posted = false
    · simp [hp]
    · have hpt : a.Posted = true := by simpa using hp
      by_cases h50 : counter + 1 > 50
      · have h51 : 50 - counter = 0 := by omega
        have hcnt : counter + 1 = 51 := by omega
        simp [hpt, h50, h51, hcnt]
      · have hrec := ih (counter + 1) (by omega) (by omega)
        have h2 : 51 - (counter + 1) = 50 - counter := by omega
        rw [h2] at hrec
        simp only [hpt, Bool.true_eq_false, if_false, h50, Bool.not_true]
        exact hrec

theorem selPostIdxLoop_policy (na : newsArticleArray) (draws : Nat → Nat)
    (hr : ∀ k, draws k < na.length) (fuel : Nat) (hf : 51 ≤ fuel) :
    selPostIdxLoop na draws fuel 0
      = Sel.ret (pickPolicy 51 na draws).1 (pickPolicy 51 na draws).2 := by
  rw [selPostIdxLoop_eq na draws hr fuel 0 (by omega) (by omega)]
  unfold pickPolicy
  rw [List.range_eq_range']
  simp only [Nat.sub_zero]
  cases (List.range' 0 51).find? (fun k => (na[draws k]?).any (fun a => !a.Posted)) <;> rfl

theorem pickPolicy_bounds (na : newsArticleArray) (draws : Nat → Nat)
    (hne : na ≠ []) (hr : ∀ k, draws k < na.length) (attempts : Nat) :
    (pickPolicy attempts na draws).1 < na.length ∧ (pickPolicy attempts na draws).2 ≤ attempts := by
  unfold pickPolicy
  cases hfind : (List.range attempts).find? (fun k => (na[draws k]?).any (fun a => !a.Posted)) with
  | none => exact ⟨List.length_pos.mpr hne, Nat.le_refl _⟩
  | some k =>
    have hk := List.mem_of_find?_eq_some hfind
    rw [List.mem_range] at hk
    exact ⟨hr k, hk⟩

/-! ## Selector: the claims -/

/-- C3. For a non-empty active list and draws that stay inside it,
`selPostIdx` returns: with any fuel from 51 on the loop gives one and the
same result, reached after at most 51 draws, and the index returned is inside
the list. -/
theorem selPostIdx_terminates (na : newsArticleArray) (draws : Nat → Nat)
    (hne : na ≠ []) (hr : ∀ k, draws k < na.length) :
    ∃ idx ndraws, (∀ fuel, 51 ≤ fuel → selPostIdxLoop na draws fuel 0 = Sel.ret idx ndraws)
      ∧ selPostIdx na draws = Sel.ret idx ndraws ∧ ndraws ≤ 51 ∧ idx < na.length :=
  ⟨(pickPolicy 51 na draws).1, (pickPolicy 51 na draws).2,
    fun fuel hf => selPostIdxLoop_policy na draws hr fuel hf,
    selPostIdxLoop_policy na draws hr 51 (Nat.le_refl _),
    (pickPolicy_bounds na draws hne hr 51).2, (pickPolicy_bounds na draws hne hr 51).1⟩

/-- C4, amended. For a non-empty active list and draws that stay inside it,
`selPostIdx` is the reference policy with a bound of 51 attempts: it returns
the first of the first 51 draws whose entry is not posted, and index 0 with no
further draw when all 51 land on posted entries. -/
theorem selPostIdx_policy (na : newsArticleArray) (draws : Nat → Nat)
    (hne : na ≠ []) (hr : ∀ k, draws k < na.length) :
    selPostIdx na draws = Sel.ret (pickPolicy 51 na draws).1 (pickPolicy 51 na draws).2
      ∧ (pickPolicy 51 na draws).1 < na.length :=
  ⟨selPostIdxLoop_policy na draws hr 51 (Nat.le_refl _), (pickPolicy_bounds na draws hne hr 51).1⟩

/-! ## One cycle of `run`: lemmas -/

theorem markPosted_take (na : newsArticleArray) (idx : Nat) (a : newsArticle)
    (hget : na[idx]? = some a) (hidx : idx < 500) :
    markPosted (na.take 500) idx = some ((na.take 500).set idx { a with Posted := true }) := by
  unfold markPosted
  rw [List.getElem?_take_of_lt hidx, hget]

theorem markPosted_beyond (na : newsArticleArray) (idx : Nat) (hidx : 500 ≤ idx) :
    markPosted (na.take 500) idx = none := by
  unfold markPosted
  have hlen : (na.take 500).length ≤ idx := by
    rw [List.length_take]; omega
  rw [List.getElem?_eq_none hlen]

theorem length_pos_of_getElem? (na : newsArticleArray) (idx : Nat) (a : newsArticle)
    (hget : na[idx]? = some a) : na.length > 0 := by
  have h := (List.getElem?_eq_some_iff.mp hget).1
  omega

/-- Past index 500 of a list longer than 500 the cycle writes the archive and
then panics at `na[idx].Posted = true`: the active store is not written. -/
theorem runPublish_beyond (app : newsApp) (env : CycleEnv) (w : World) (phase : Int)
    (na old : newsArticleArray) (idx nd : Nat) (a : newsArticle)
    (hL : na.length > 500)
    (hsel : selPostIdx na env.draws = Sel.ret idx nd)
    (hget : na[idx]? = some a) (hidx : 500 ≤ idx)
    (hnb : checkBlockedWords app (composePost app env a) = false)
    (hpost : (httpPostEmma app env w (composePost app env a)).2.2 = true)
    (harch : readDbJSON w.archive = some old) :
    (runPublish app env w phase na).status = CycleStatus.panicked
      ∧ (runPublish app env w phase na).world.db = w.db
      ∧ (runPublish app env w phase na).world.archive = DbFile.holds (na.drop 500 ++ old) := by
  have hpos : na.length > 0 := by omega
  have harch1 : readDbJSON (httpPostEmma app env w (composePost app env a)).2.1.archive
      = some old := by
    unfold httpPostEmma
    cases env.refresh <;> simp only [harch]
    cases env.post <;> simp only [harch]
  unfold runPublish
  simp only [hpos, if_true, hsel, hget, hnb, Bool.false_eq_true, if_false]
  rcases hres : httpPostEmma app env w (composePost app env a) with ⟨app1, w1, ok⟩
  rw [hres] at hpost harch1
  simp only at hpost harch1
  subst hpost
  have hdb : w1.db = w.db := by
    have := congrArg (fun r => r.2.1.db) hres
    simp only at this
    rw [← this]
    unfold httpPostEmma
    cases env.refresh
    · rfl
    · cases env.post <;> rfl
  simp only [runRotate, hL, if_true, harch1, markPosted_beyond na idx hidx, hdb, and_self]

/-! ## One cycle of `run`: the claims -/

/-- C5. For an active list of length above 500 and a readable archive, the
rotation step writes as the new archive the entries from index 500 on, in
their order, followed by the old archive, and goes on with the first 500
entries: the active list has length 500 and the archive grows by the length
of the list minus 500. -/
theorem runRotate_oversized (w : World) (na old : newsArticleArray)
    (hL : na.length > 500) (harch : readDbJSON w.archive = some old) :
    runRotate w na
        = some ({ w with archive := DbFile.holds (na.drop 500 ++ old),
                         events := w.events ++ [IOEvent.writeNewsArchive (na.drop 500 ++ old)] },
                na.take 500)
      ∧ (na.take 500).length = 500
      ∧ (na.drop 500 ++ old).length = old.length + (na.length - 500) := by
  refine ⟨?_, ?_, ?_⟩
  · simp only [runRotate, hL, if_true, harch]
  · rw [List.length_take]; omega
  · rw [List.length_append, List.length_drop]; omega

/-- C8. A cycle whose composed text matches the blocklist ends at the
`continue` with the application record and the world as they were: both store
files unchanged and no call logged (no token refresh, no post, no write). -/
theorem runCycle_blocked (app : newsApp) (env : CycleEnv) (w : World) (phase phase1 : Int)
    (na : newsArticleArray) (idx nd : Nat) (a : newsArticle)
    (hload : runLoad app env w phase = Res.ok (na, phase1))
    (hsel : selPostIdx na env.draws = Sel.ret idx nd)
    (hget : na[idx]? = some a)
    (hblk : checkBlockedWords app (composePost app env a) = true) :
    runCycle app env w phase = ⟨app, w, phase1, CycleStatus.blocked⟩ := by
  have hpos := length_pos_of_getElem? na idx a hget
  unfold runCycle
  rw [hload]
  simp only [runPublish, hpos, if_true, hsel, hget, hblk]

/-- C9, amended. In a cycle in which `doRefreshToken` returns an error no
post request is made and the application record keeps its token, and the
cycle goes on as after a publish.  For a selected index below 500: over a list
of at most 500 entries the article is marked posted and the active store is
written with it, the archive being neither read nor written; over a longer
list with a readable archive the archive is written first and the first 500
entries, the article marked posted, are written as the active store; over a
longer list with an archive that does not parse `readDbJSON` ends the process
after the refresh attempt and nothing is written. -/
theorem runCycle_refresh_failure (app : newsApp) (env : CycleEnv) (w : World)
    (phase phase1 : Int) (na : newsArticleArray) (idx nd : Nat) (a : newsArticle)
    (hload : runLoad app env w phase = Res.ok (na, phase1))
    (hsel : selPostIdx na env.draws = Sel.ret idx nd)
    (hget : na[idx]? = some a)
    (hnb : checkBlockedWords app (composePost app env a) = false)
    (hrefresh : env.refresh = none)
    (hidx : idx < 500) :
    (runCycle app env w phase).app = app
      ∧ (na.length ≤ 500 →
          (runCycle app env w phase).world
            = { db := DbFile.holds (na.set idx { a with Posted := true }),
                archive := w.archive,
                events := w.events ++ [IOEvent.refreshToken,
                  IOEvent.writeNewsDb (na.set idx { a with Posted := true })] })
      ∧ (∀ old, 500 < na.length → readDbJSON w.archive = some old →
          (runCycle app env w phase).world
            = { db := DbFile.holds ((na.take 500).set idx { a with Posted := true }),
                archive := DbFile.holds (na.drop 500 ++ old),
                events := w.events ++ [IOEvent.refreshToken,
                  IOEvent.writeNewsArchive (na.drop 500 ++ old),
                  IOEvent.writeNewsDb ((na.take 500).set idx { a with Posted := true })] })
      ∧ (500 < na.length → readDbJSON w.archive = none →
          (runCycle app env w phase).status = CycleStatus.fatal
            ∧ (runCycle app env w phase).world
              = { db := w.db, archive := w.archive,
                  events := w.events ++ [IOEvent.refreshToken] }) := by
  have hpos := length_pos_of_getElem? na idx a hget
  have hmark := markPosted_take na idx a hget hidx
  unfold runCycle
  rw [hload]
  simp only [runPublish, hpos, if_true, hsel, hget, hnb, Bool.false_eq_true, if_false,
    httpPostEmma, hrefresh]
  refine ⟨?_, ?_, ?_, ?_⟩
  · by_cases hL : na.length > 500
    · cases harch : readDbJSON w.archive with
      | none => simp only [runRotate, hL, if_true, harch]
      | some old =>
        simp only [runRotate, hL, if_true, harch, hmark, writeNewsDb]
        by_cases hi : app.interval ≤ 0 <;> simp [hi]
    · have htake : na.take 500 = na := List.take_of_length_le (by omega)
      rw [htake] at hmark
      simp only [runRotate, hL, if_false, hmark, writeNewsDb]
      by_cases hi : app.interval ≤ 0 <;> simp [hi]
  · intro hle
    have hL : ¬ na.length > 500 := by omega
    have htake : na.take 500 = na := List.take_of_length_le hle
    rw [htake] at hmark
    simp only [runRotate, hL, if_false, hmark, writeNewsDb]
    by_cases hi : app.interval ≤ 0 <;> simp [hi]
  · intro old hL harch
    have hL1 : na.length > 500 := hL
    simp only [runRotate, hL1, if_true, harch, hmark, writeNewsDb]
    by_cases hi : app.interval ≤ 0 <;> simp [hi]
  · intro hL harch
    have hL1 : na.length > 500 := hL
    simp only [runRotate, hL1, if_true, harch, List.append_assoc, and_self]

/-! ## Concrete evaluations -/

/-- C2, at a concrete input: the list `samplePair` with fingerprints `"h1"`,
`"h2"` and a batch that repeats a description and has two empty ones. -/
theorem doInsertNews_nodup_witness :
    (samplePair.map (fun x => x.Hash)).Nodup
      ∧ ((doInsertNews sampleSum256 samplePair sampleBatch [107]).map (fun x => x.Hash)).Nodup :=
  ⟨by decide, doInsertNews_nodup sampleSum256 samplePair sampleBatch [107] (by decide)⟩

/-- C3, at a concrete input: a posted and an unposted entry, the first 50
draws on the posted one. -/
theorem selPostIdx_terminates_witness :
    samplePair ≠ [] ∧ (∀ k, drawsLate k < samplePair.length)
      ∧ ∃ idx ndraws,
          (∀ fuel, 51 ≤ fuel → selPostIdxLoop samplePair drawsLate fuel 0 = Sel.ret idx ndraws)
            ∧ selPostIdx samplePair drawsLate = Sel.ret idx ndraws
            ∧ ndraws ≤ 51 ∧ idx < samplePair.length :=
  ⟨by decide, fun k => by unfold drawsLate; split <;> decide,
   selPostIdx_terminates samplePair drawsLate (by decide)
     (fun k => by unfold drawsLate; split <;> decide)⟩

set_option maxRecDepth 100000 in
/-- C4 as stated fails: with the first 50 draws on a posted entry and draw
number 51 on the unposted entry 1, `selPostIdx` makes 51 draws and returns 1,
while the policy with a bound of 50 attempts returns 0 after 50 draws. -/
theorem selPostIdx_not_policy50 :
    selPostIdx samplePair drawsLate = Sel.ret 1 51
      ∧ pickPolicy 50 samplePair drawsLate = (0, 50)
      ∧ selPostIdx samplePair drawsLate
          ≠ Sel.ret (pickPolicy 50 samplePair drawsLate).1 (pickPolicy 50 samplePair drawsLate).2 := by
  decide

/-- C4 amended, at the same input. -/
theorem selPostIdx_policy_witness :
    samplePair ≠ [] ∧ (∀ k, drawsLate k < samplePair.length)
      ∧ selPostIdx samplePair drawsLate
          = Sel.ret (pickPolicy 51 samplePair drawsLate).1 (pickPolicy 51 samplePair drawsLate).2
      ∧ (pickPolicy 51 samplePair drawsLate).1 < samplePair.length :=
  ⟨by decide, fun k => by unfold drawsLate; split <;> decide,
   selPostIdx_policy samplePair drawsLate (by decide)
     (fun k => by unfold drawsLate; split <;> decide)⟩

set_option maxRecDepth 100000 in
/-- C5, at a concrete input: the list of 501 entries and an archive of two. -/
theorem runRotate_oversized_witness :
    oversizedList.length > 500
      ∧ readDbJSON (DbFile.holds samplePair) = some samplePair
      ∧ runRotate { oversizedWorld with archive := DbFile.holds samplePair } oversizedList
          = some ({ oversizedWorld with
                      archive := DbFile.holds (oversizedList.drop 500 ++ samplePair),
                      events := [IOEvent.writeNewsArchive (oversizedList.drop 500 ++ samplePair)] },
                  oversizedList.take 500)
      ∧ (oversizedList.take 500).length = 500
      ∧ (oversizedList.drop 500 ++ samplePair).length
          = samplePair.length + (oversizedList.length - 500) :=
  ⟨by decide, rfl,
   runRotate_oversized { oversizedWorld with archive := DbFile.holds samplePair } oversizedList
     samplePair (by decide) rfl⟩

set_option maxRecDepth 100000 in
/-- C6 fails on the code: in the cycle over the list of 501 entries, all posted
except index 500, with the selector drawing 500, the text is posted and the
archive written, then `na[idx].Posted = true` runs on the list cut to 500
entries and panics; the active store is not written. -/
theorem runCycle_oversized_panics :
    oversizedList.length = 501
      ∧ selPostIdx oversizedList oversizedEnv.draws = Sel.ret 500 1
      ∧ (runCycle (sampleApp []) oversizedEnv oversizedWorld 1).status = CycleStatus.panicked
      ∧ (runCycle (sampleApp []) oversizedEnv oversizedWorld 1).world.db
          = DbFile.holds oversizedList
      ∧ (runCycle (sampleApp []) oversizedEnv oversizedWorld 1).world.archive
          = DbFile.holds [oversizedLast]
      ∧ (runCycle (sampleApp []) oversizedEnv oversizedWorld 1).world.events
          = [IOEvent.refreshToken,
             IOEvent.postComment (composePost (sampleApp []) oversizedEnv oversizedLast),
             IOEvent.writeNewsArchive [oversizedLast]] := by
  decide

/-- C8, at a concrete input: blocklist `["", "spam"]`, one article titled
`"spam!"`, a cycle that starts with an ingestion (`phase = 0`). -/
theorem runCycle_blocked_witness :
    runCycle spamApp refreshOkEnv (singleWorld spamArticle) 0
      = ⟨spamApp, singleWorld spamArticle, 4, CycleStatus.blocked⟩ :=
  runCycle_blocked spamApp refreshOkEnv (singleWorld spamArticle) 0 4 [spamArticle] 0 1
    spamArticle (by decide) (by decide) (by decide) (by decide)

/-- C9 as stated fails: in a cycle in which the token refresh fails, the
selected article, unposted before, is written to the active store with its
posted flag set. -/
theorem runCycle_refresh_failure_marks :
    refreshFailEnv.refresh = none
      ∧ plainArticle.Posted = false
      ∧ (singleWorld plainArticle).db = DbFile.holds [plainArticle]
      ∧ (runCycle (sampleApp []) refreshFailEnv (singleWorld plainArticle) 1).world.db
          = DbFile.holds [{ plainArticle with Posted := true }]
      ∧ (runCycle (sampleApp []) refreshFailEnv (singleWorld plainArticle) 1).world.events
          = [IOEvent.refreshToken, IOEvent.writeNewsDb [{ plainArticle with Posted := true }]]
      ∧ (runCycle (sampleApp []) refreshFailEnv (singleWorld plainArticle) 1).status
          = CycleStatus.slept := by
  decide

set_option maxRecDepth 100000 in
/-- C9 amended, at three concrete inputs: a one-entry list with an archive
that does not parse (the archive is not read), the list of 501 entries with
entry 0 unposted and a two-entry archive, and the same list with an archive
that does not parse. -/
theorem runCycle_refresh_failure_witness :
    (runCycle (sampleApp []) refreshFailEnv
        { singleWorld plainArticle with archive := DbFile.corrupt } 1).world
        = { db := DbFile.holds [{ plainArticle with Posted := true }],
            archive := DbFile.corrupt,
            events := [IOEvent.refreshToken,
              IOEvent.writeNewsDb [{ plainArticle with Posted := true }]] }
      ∧ (runCycle (sampleApp []) refreshFailEnv
          { freshHeadWorld with archive := DbFile.holds samplePair } 1).world
        = { db := DbFile.holds (oversizedList.take 500),
            archive := DbFile.holds (oversizedLast :: samplePair),
            events := [IOEvent.refreshToken,
              IOEvent.writeNewsArchive (oversizedLast :: samplePair),
              IOEvent.writeNewsDb (oversizedList.take 500)] }
      ∧ (runCycle (sampleApp []) refreshFailEnv
            { freshHeadWorld with archive := DbFile.corrupt } 1).status = CycleStatus.fatal
      ∧ (runCycle (sampleApp []) refreshFailEnv
            { freshHeadWorld with archive := DbFile.corrupt } 1).world
        = { db := DbFile.holds freshHeadList, archive := DbFile.corrupt,
            events := [IOEvent.refreshToken] } :=
  ⟨(runCycle_refresh_failure (sampleApp []) refreshFailEnv
      { singleWorld plainArticle with archive := DbFile.corrupt } 1 0
      [plainArticle] 0 1 plainArticle (by decide) (by decide) (by decide) (by decide) rfl
      (by decide)).2.1 (by decide),
   ((runCycle_refresh_failure (sampleApp []) refreshFailEnv
      { freshHeadWorld with archive := DbFile.holds samplePair } 1 0
      freshHeadList 0 1 freshHead (by decide) (by decide) (by decide) (by decide) rfl
      (by decide)).2.2.1 samplePair (by decide) rfl).trans (by decide),
   ((runCycle_refresh_failure (sampleApp []) refreshFailEnv
      { freshHeadWorld with archive := DbFile.corrupt } 1 0
      freshHeadList 0 1 freshHead (by decide) (by decide) (by decide) (by decide) rfl
      (by decide)).2.2.2 (by decide) rfl).1,
   ((runCycle_refresh_failure (sampleApp []) refreshFailEnv
      { freshHeadWorld with archive := DbFile.corrupt } 1 0
      freshHeadList 0 1 freshHead (by decide) (by decide) (by decide) (by decide) rfl
      (by decide)).2.2.2 (by decide) rfl).2⟩

/-- C10 as stated fails: `removeSpace` leaves a tab and a newline in place. -/
theorem removeSpace_keeps_tab :
    removeSpace [97, 9, 98, 10, 99] = [97, 9, 98, 10, 99]
      ∧ (9 : UInt8) ∈ removeSpace [97, 9, 98, 10, 99]
      ∧ (10 : UInt8) ∈ removeSpace [97, 9, 98, 10, 99] := by
  decide

/-- C10 amended, at the keyword `"a b\tc"`. -/
theorem removeSpace_spec_witness :
    (∀ c ∈ sampleKeyword, c.toNat < 128)
      ∧ removeSpace sampleKeyword = sampleKeyword.filter (fun c => decide (c ≠ 32))
      ∧ (32 : UInt8) ∉ removeSpace sampleKeyword :=
  ⟨by decide, removeSpace_spec sampleKeyword (by decide)⟩

end Newsbot
